import Mathlib

/-!
Verification development for the `arweave-rs` crypto facade.

The repository sources available are `src/crypto/mod.rs` (the `Provider`
facade) and `src/error.rs`.  The submodules it relies on
(`crypto::hash`, `crypto::base64`, `crypto::sign`) are declared there but
their files are not part of the sources; following the specification,
those parts are modelled from the spec and marked as such in their doc
comments.

Bytes are embedded as `Nat` (no arithmetic overflow is involved anywhere
in the modelled code; where byte-ness matters, e.g. for the base64 codec,
an explicit `< 256` bound is carried).  Text is embedded as the list of
its ASCII codes.  The SHA-384 and SHA-256 compression functions are not
part of the sources and the spec fixes only their digest lengths and
(for the deep hash) collision resistance; they are taken as explicit
function parameters, with collision resistance idealised as injectivity
and the digest size as a length hypothesis.
-/

/-- The crate error type as used by `src/crypto/mod.rs`
(`Error::NoneError("No private key present")`); the other variants are
modelled from the spec error surface (KeyLoadError, DecodeError). -/
inductive Error : Type
  | NoneError (msg : String)
  | KeyLoadError (msg : String)
  | DecodeError (msg : String)
deriving DecidableEq, Repr

/-- `ArweaveError` from `src/error.rs` (network-facing errors; not used by
the crypto facade, embedded for completeness). -/
inductive ArweaveError : Type
  | NetworkInfoError (msg : String)
  | UnknownError
deriving DecidableEq, Repr

/-- `Base64` newtype from `crypto::base64`: a wrapper around a raw byte
sequence; the URL-safe text form is a derived view. -/
structure Base64 where
  bytes : List Nat
deriving DecidableEq, Repr

/-- `DeepHashItem` from `crypto::hash`: recursive tagged union with
exactly two variants, `Blob(byte sequence)` and `List(items)`. -/
inductive DeepHashItem : Type
  | Blob (b : List Nat)
  | List (items : List DeepHashItem)

/-- ASCII codes of the decimal representation of a natural number
(what Rust's `n.to_string().as_bytes()` yields). -/
def decimalAscii (n : Nat) : List Nat :=
  if n = 0 then [48] else ((Nat.digits 10 n).map (fun d => d + 48)).reverse

/-- Modelled from the spec: tag of a blob,
`ascii("blob") ++ ascii(decimal(length(b)))`. -/
def blobTag (b : List Nat) : List Nat :=
  [98, 108, 111, 98] ++ decimalAscii b.length

/-- Modelled from the spec: tag of a list of length `n`,
`ascii("list") ++ ascii(decimal(n))`. -/
def listTag (n : Nat) : List Nat :=
  [108, 105, 115, 116] ++ decimalAscii n

mutual

/-- Modelled from the spec: `crypto::hash::deep_hash` is not under the
available sources.  `H` is the fixed 384-bit hash function.
`Blob(b)` hashes to `H(H(tag) ++ H(b))`; `List(items)` starts from
`H(tag)` and absorbs each child in order. -/
def deepHash (H : List Nat → List Nat) : DeepHashItem → List Nat
  | DeepHashItem.Blob b => H (H (blobTag b) ++ H b)
  | DeepHashItem.List items => deepHashList H (H (listTag items.length)) items

/-- Modelled from the spec: the accumulator loop of `deep_hash` over the
children of a `List` item: `acc = H(acc ++ deep_hash(child))`. -/
def deepHashList (H : List Nat → List Nat) (acc : List Nat) :
    List DeepHashItem → List Nat
  | [] => acc
  | child :: rest => deepHashList H (H (acc ++ deepHash H child)) rest

end

/-- Modelled from the spec: `crypto::sign::Signer` is not under the
available sources.  Per the spec it owns exactly one immutable keypair;
observably it carries the big-endian modulus bytes `n` and a signature
production function (the salted padding scheme is abstracted as the
function `sign_fn`). -/
structure Signer where
  n_bytes : List Nat
  sign_fn : List Nat → List Nat

/-- Modelled from the spec: `Signer::sign(message)` produces a signature
over `message` and returns raw signature bytes. -/
def Signer.sign (s : Signer) (message : List Nat) : Except Error Base64 :=
  Except.ok ⟨s.sign_fn message⟩

/-- Modelled from the spec: `Signer::public_key()` returns the big-endian
encoding of the modulus `n`. -/
def Signer.public_key (s : Signer) : Except Error Base64 :=
  Except.ok ⟨s.n_bytes⟩

/-- Modelled from the spec: `Signer::keypair_modulus()` returns the same
value as `public_key()`. -/
def Signer.keypair_modulus (s : Signer) : Except Error Base64 :=
  Except.ok ⟨s.n_bytes⟩

/-- Modelled from the spec: `Signer::wallet_address()` returns the
32-byte digest of the modulus bytes; `H256` is the fixed general-purpose
hash (SHA-256, abstracted). -/
def Signer.wallet_address (s : Signer) (H256 : List Nat → List Nat) :
    Except Error Base64 :=
  Except.ok ⟨H256 s.n_bytes⟩

/-- `Provider` from `src/crypto/mod.rs`: `pub struct Provider { pub
signer: Option<Box<Signer>> }` (the box is erased in the embedding). -/
structure Provider where
  signer : Option Signer

/-- `Provider::new(signer)` from `src/crypto/mod.rs`. -/
def Provider.new (signer : Option Signer) : Provider :=
  { signer := signer }

/-- `#[derive(Default)]` on `Provider`: the derived default sets
`signer` to `None`. -/
def Provider.default : Provider :=
  { signer := none }

/-- `Provider::from_keypair_path` from `src/crypto/mod.rs`:
`let signer = Signer::from_keypair_path(keypair_path)?;
Ok(Provider::new(Some(Box::new(signer))))`.  `Signer::from_keypair_path`
is not under the available sources; it is taken as the parameter `load`
(modelled from the spec: a fallible construction step from a credential
path). -/
def Provider.from_keypair_path (load : String → Except Error Signer)
    (keypair_path : String) : Except Error Provider :=
  match load keypair_path with
  | Except.ok signer => Except.ok (Provider.new (some signer))
  | Except.error e => Except.error e

/-- `Provider::deep_hash` from `src/crypto/mod.rs`: delegates to
`hash::deep_hash`, ignoring the held signer. -/
def Provider.deep_hash (_p : Provider) (H : List Nat → List Nat)
    (deep_hash_item : DeepHashItem) : List Nat :=
  deepHash H deep_hash_item

/-- `Provider::sign` from `src/crypto/mod.rs`: delegates to the held
signer, or fails with `Error::NoneError("No private key present")`. -/
def Provider.sign (p : Provider) (message : List Nat) : Except Error Base64 :=
  match p.signer with
  | some signer => signer.sign message
  | none => Except.error (Error.NoneError "No private key present")

/-- `Provider::hash_sha256` from `src/crypto/mod.rs`: delegates to
`hash::sha256` (not under the available sources; taken as the parameter
`H256`, modelled from the spec as the fixed general-purpose hash). -/
def Provider.hash_sha256 (_p : Provider) (H256 : List Nat → List Nat)
    (message : List Nat) : List Nat :=
  H256 message

/-- `Provider::keypair_modulus` from `src/crypto/mod.rs`. -/
def Provider.keypair_modulus (p : Provider) : Except Error Base64 :=
  match p.signer with
  | some signer => signer.keypair_modulus
  | none => Except.error (Error.NoneError "No private key present")

/-- `Provider::wallet_address` from `src/crypto/mod.rs`. -/
def Provider.wallet_address (p : Provider) (H256 : List Nat → List Nat) :
    Except Error Base64 :=
  match p.signer with
  | some signer => signer.wallet_address H256
  | none => Except.error (Error.NoneError "No private key present")

/-- `Provider::public_key` from `src/crypto/mod.rs`. -/
def Provider.public_key (p : Provider) : Except Error Base64 :=
  match p.signer with
  | some signer => signer.public_key
  | none => Except.error (Error.NoneError "No private key present")

/-!
State-passing embedding of the `&self` methods of `Provider`: each Rust
method takes an immutable borrow of the receiver, so the embedding
returns the result paired with the receiver state after the call.
-/

/-- State-passing form of `Provider::deep_hash`. -/
def Provider.deep_hash_st (p : Provider) (H : List Nat → List Nat)
    (item : DeepHashItem) : List Nat × Provider :=
  (p.deep_hash H item, p)

/-- State-passing form of `Provider::sign`. -/
def Provider.sign_st (p : Provider) (message : List Nat) :
    Except Error Base64 × Provider :=
  (p.sign message, p)

/-- State-passing form of `Provider::hash_sha256`. -/
def Provider.hash_sha256_st (p : Provider) (H256 : List Nat → List Nat)
    (message : List Nat) : List Nat × Provider :=
  (p.hash_sha256 H256 message, p)

/-- State-passing form of `Provider::keypair_modulus`. -/
def Provider.keypair_modulus_st (p : Provider) :
    Except Error Base64 × Provider :=
  (p.keypair_modulus, p)

/-- State-passing form of `Provider::wallet_address`. -/
def Provider.wallet_address_st (p : Provider) (H256 : List Nat → List Nat) :
    Except Error Base64 × Provider :=
  (p.wallet_address H256, p)

/-- State-passing form of `Provider::public_key`. -/
def Provider.public_key_st (p : Provider) : Except Error Base64 × Provider :=
  (p.public_key, p)

/-!
URL-safe, unpadded base64 codec (RFC 4648 §5).  `crypto::base64` is not
under the available sources; the codec is modelled from the spec.
Encoded text is embedded as the list of its ASCII codes.
-/

/-- Modelled from the spec: the RFC 4648 §5 alphabet, mapping a sextet
value (0..63) to its ASCII code (`A-Z`, `a-z`, `0-9`, `-`, `_`). -/
def b64Char (v : Nat) : Nat :=
  if v ≤ 25 then 65 + v
  else if v ≤ 51 then 97 + (v - 26)
  else if v ≤ 61 then 48 + (v - 52)
  else if v = 62 then 45
  else 95

/-- Modelled from the spec: inverse of the RFC 4648 §5 alphabet; `none`
on a character outside the alphabet. -/
def b64Value (c : Nat) : Option Nat :=
  if 65 ≤ c ∧ c ≤ 90 then some (c - 65)
  else if 97 ≤ c ∧ c ≤ 122 then some (c - 97 + 26)
  else if 48 ≤ c ∧ c ≤ 57 then some (c - 48 + 52)
  else if c = 45 then some 62
  else if c = 95 then some 63
  else none

/-- Modelled from the spec: regroup bytes into 6-bit values, three bytes
to four sextets, with the unpadded tail of one byte giving two sextets
and of two bytes giving three. -/
def bytesToSextets : List Nat → List Nat
  | b0 :: b1 :: b2 :: rest =>
      (b0 / 4) :: ((b0 % 4) * 16 + b1 / 16) :: ((b1 % 16) * 4 + b2 / 64) ::
        (b2 % 64) :: bytesToSextets rest
  | [b0, b1] => [b0 / 4, (b0 % 4) * 16 + b1 / 16, (b1 % 16) * 4]
  | [b0] => [b0 / 4, (b0 % 4) * 16]
  | [] => []

/-- Modelled from the spec: regroup 6-bit values back into bytes, four
sextets to three bytes; a tail of one sextet is an invalid length, and a
tail with nonzero trailing bits is rejected so that encoding is the
exact inverse (the round-trip contract `encode(decode(s)) == s`). -/
def sextetsToBytes : List Nat → Option (List Nat)
  | s0 :: s1 :: s2 :: s3 :: rest =>
      (sextetsToBytes rest).map
        (fun bs => (s0 * 4 + s1 / 16) :: ((s1 % 16) * 16 + s2 / 4) ::
          ((s2 % 4) * 64 + s3) :: bs)
  | [s0, s1, s2] =>
      if s2 % 4 = 0 then some [s0 * 4 + s1 / 16, (s1 % 16) * 16 + s2 / 4]
      else none
  | [s0, s1] => if s1 % 16 = 0 then some [s0 * 4 + s1 / 16] else none
  | [_] => none
  | [] => some []

/-- Modelled from the spec: map every character of the encoded text
through the alphabet inverse, failing on the first invalid character. -/
def decodeSextets : List Nat → Option (List Nat)
  | [] => some []
  | c :: rest =>
      match b64Value c, decodeSextets rest with
      | some v, some vs => some (v :: vs)
      | _, _ => none

/-- Modelled from the spec: `encode(bytes) -> text`, URL-safe unpadded
base64. -/
def base64Encode (bytes : List Nat) : List Nat :=
  (bytesToSextets bytes).map b64Char

/-- Modelled from the spec: `decode(text) -> bytes`, failing with a
decode error on invalid alphabet or length (and on non-canonical
trailing bits, which the round-trip contract forces a strict decoder to
reject). -/
def base64Decode (text : List Nat) : Except Error (List Nat) :=
  match decodeSextets text with
  | none => Except.error (Error.DecodeError "invalid byte")
  | some vs =>
      match sextetsToBytes vs with
      | none => Except.error (Error.DecodeError "invalid length")
      | some bs => Except.ok bs

/-!
Concrete instances used by the witnesses: an injective hash with
constant digest length 48 (possible because digests are lists of
naturals), and constant-length stand-ins for the digest-size-only
hypotheses.
-/

/-- Injective encoding of a list of naturals into a natural, via
`Nat.pair`. -/
def encodeListNat : List Nat → Nat
  | [] => 0
  | a :: t => Nat.pair a (encodeListNat t) + 1

/-- A concrete hash function with digest length 48 that is injective. -/
def Hwit (s : List Nat) : List Nat :=
  encodeListNat s :: List.replicate 47 0

/-- A concrete function with constant digest length 48. -/
def H48 (_s : List Nat) : List Nat :=
  List.replicate 48 0

/-- A concrete function with constant digest length 32. -/
def H32 (_s : List Nat) : List Nat :=
  List.replicate 32 0

/-- A concrete signer used by the witnesses. -/
def sWit : Signer :=
  { n_bytes := [1, 2, 3], sign_fn := fun m => 9 :: m }

theorem encodeListNat_injective : Function.Injective encodeListNat := by
  intro xs
  induction xs with
  | nil =>
      intro ys h
      cases ys with
      | nil => rfl
      | cons b t => simp [encodeListNat] at h
  | cons a t ih =>
      intro ys h
      cases ys with
      | nil => simp [encodeListNat] at h
      | cons b u =>
          simp only [encodeListNat, Nat.succ_inj] at h
          rcases Nat.pair_eq_pair.mp h with ⟨h1, h2⟩
          rw [h1, ih h2]

theorem Hwit_injective : Function.Injective Hwit := by
  intro xs ys h
  simp only [Hwit, List.cons.injEq] at h
  exact encodeListNat_injective h.1

theorem Hwit_length (s : List Nat) : (Hwit s).length = 48 := by
  simp [Hwit]

theorem decimalAscii_injective : Function.Injective decimalAscii := by
  intro a b h
  have digits_eq_of : ∀ m n : Nat, Nat.digits 10 m = Nat.digits 10 n → m = n := by
    intro m n hd
    have := congrArg (Nat.ofDigits 10) hd
    rwa [Nat.ofDigits_digits, Nat.ofDigits_digits] at this
  by_cases ha : a = 0 <;> by_cases hb : b = 0
  · rw [ha, hb]
  · exfalso
    simp only [decimalAscii, ha, hb, if_true, if_false] at h
    have h' := congrArg List.reverse h
    simp only [List.reverse_reverse, List.reverse_cons, List.reverse_nil,
      List.nil_append] at h'
    have hd : Nat.digits 10 b = [0] := by
      cases hdig : Nat.digits 10 b with
      | nil => rw [hdig] at h'; simp at h'
      | cons d ds =>
          rw [hdig] at h'
          cases ds with
          | nil =>
              simp only [List.map_cons, List.map_nil, List.cons.injEq] at h'
              have : d = 0 := by omega
              rw [this]
          | cons e es => simp at h'
    have : b = 0 := by
      have := congrArg (Nat.ofDigits 10) hd
      rw [Nat.ofDigits_digits] at this
      simpa [Nat.ofDigits] using this
    exact hb this
  · exfalso
    simp only [decimalAscii, ha, hb, if_true, if_false] at h
    have h' := congrArg List.reverse h
    simp only [List.reverse_reverse, List.reverse_cons, List.reverse_nil,
      List.nil_append] at h'
    have hd : Nat.digits 10 a = [0] := by
      cases hdig : Nat.digits 10 a with
      | nil => rw [hdig] at h'; simp at h'
      | cons d ds =>
          rw [hdig] at h'
          cases ds with
          | nil =>
              simp only [List.map_cons, List.map_nil, List.cons.injEq] at h'
              have : d = 0 := by omega
              rw [this]
          | cons e es => simp at h'
    have : a = 0 := by
      have := congrArg (Nat.ofDigits 10) hd
      rw [Nat.ofDigits_digits] at this
      simpa [Nat.ofDigits] using this
    exact ha this
  · simp only [decimalAscii, ha, hb, if_false] at h
    have h' := congrArg List.reverse h
    simp only [List.reverse_reverse] at h'
    have hmap : Nat.digits 10 a = Nat.digits 10 b := by
      have hinj : Function.Injective (fun d : Nat => d + 48) := by
        intro x y hxy
        simp only [] at hxy
        omega
      exact List.map_injective_iff.mpr hinj h'
    exact digits_eq_of a b hmap

theorem deepHashList_eq_foldl (H : List Nat → List Nat) (l : List DeepHashItem)
    (acc : List Nat) :
    deepHashList H acc l =
      l.foldl (fun a child => H (a ++ deepHash H child)) acc := by
  induction l generalizing acc with
  | nil => rfl
  | cons child rest ih => rw [deepHashList, List.foldl_cons, ih]

theorem deepHashList_length (H : List Nat → List Nat)
    (hH : ∀ s, (H s).length = 48) (l : List DeepHashItem) (acc : List Nat)
    (hacc : acc.length = 48) : (deepHashList H acc l).length = 48 := by
  induction l generalizing acc with
  | nil => exact hacc
  | cons child rest ih => rw [deepHashList]; exact ih _ (hH _)

theorem deepHash_blob (H : List Nat → List Nat) (b : List Nat) :
    deepHash H (DeepHashItem.Blob b) = H (H (blobTag b) ++ H b) := by
  rw [deepHash]

theorem deepHash_pair (H : List Nat → List Nat) (x y : List Nat) :
    deepHash H (DeepHashItem.List [DeepHashItem.Blob x, DeepHashItem.Blob y]) =
      H (H (H (listTag 2) ++ deepHash H (DeepHashItem.Blob x)) ++
        deepHash H (DeepHashItem.Blob y)) := by
  simp only [deepHash, deepHashList, List.length_cons, List.length_nil]

theorem hash48_append_inj (H : List Nat → List Nat)
    (hH : ∀ s, (H s).length = 48) {u v x y : List Nat}
    (h : H u ++ x = H v ++ y) : H u = H v ∧ x = y :=
  List.append_inj h (by rw [hH, hH])

/-- C1: `deep_hash` follows the specified structural recursion: a blob
hashes to `H(H(tag) ++ H(blob))` with `tag = ascii("blob") ++
ascii(decimal(length)))`, and a list of length n folds
`acc = H(acc ++ deep_hash(child))` over its children starting from
`acc = H(ascii("list") ++ ascii(decimal(n)))`. -/
theorem deep_hash_structural_recursion (H : List Nat → List Nat)
    (b : List Nat) (items : List DeepHashItem) :
    deepHash H (DeepHashItem.Blob b) = H (H (blobTag b) ++ H b) ∧
    deepHash H (DeepHashItem.List items) =
      items.foldl (fun acc child => H (acc ++ deepHash H child))
        (H (listTag items.length)) := by
  constructor
  · rw [deepHash]
  · rw [deepHash, deepHashList_eq_foldl]

/-- C3: for every `DeepHashItem` and every `Provider` (with or without a
signer), `Provider::deep_hash` totally computes a digest of exactly 48
bytes, given that the underlying 384-bit hash has 48-byte digests. -/
theorem provider_deep_hash_always_48 (H : List Nat → List Nat)
    (hH : ∀ s, (H s).length = 48) (p : Provider) (item : DeepHashItem) :
    (p.deep_hash H item).length = 48 := by
  rw [Provider.deep_hash]
  cases item with
  | Blob b => rw [deepHash]; exact hH _
  | List items => rw [deepHash]; exact deepHashList_length H hH _ _ (hH _)

theorem provider_deep_hash_always_48_witness :
    (∀ s, (H48 s).length = 48) ∧
    ((Provider.new (some sWit)).deep_hash H48
      (DeepHashItem.List [DeepHashItem.Blob [0, 1],
        DeepHashItem.List []])).length = 48 :=
  ⟨fun _ => by simp [H48],
   provider_deep_hash_always_48 H48 (fun _ => by simp [H48])
     (Provider.new (some sWit))
     (DeepHashItem.List [DeepHashItem.Blob [0, 1], DeepHashItem.List []])⟩

/-- C5: `deep_hash` is order-sensitive for lists: with the 384-bit hash
collision resistance idealised as injectivity (and 48-byte digests),
swapping two distinct blobs in a two-element list changes the digest. -/
theorem deep_hash_order_sensitive (H : List Nat → List Nat)
    (hinj : Function.Injective H) (hH : ∀ s, (H s).length = 48)
    (a b : List Nat) (hab : a ≠ b) :
    deepHash H (DeepHashItem.List [DeepHashItem.Blob a, DeepHashItem.Blob b])
      ≠ deepHash H
        (DeepHashItem.List [DeepHashItem.Blob b, DeepHashItem.Blob a]) := by
  intro h
  rw [deepHash_pair, deepHash_pair] at h
  obtain ⟨-, h3⟩ := hash48_append_inj H hH (hinj h)
  rw [deepHash_blob, deepHash_blob] at h3
  obtain ⟨-, h6⟩ := hash48_append_inj H hH (hinj h3)
  exact hab (hinj h6).symm

theorem deep_hash_order_sensitive_witness :
    Function.Injective Hwit ∧ (∀ s, (Hwit s).length = 48) ∧
    ([0] : List Nat) ≠ [1] ∧
    deepHash Hwit
        (DeepHashItem.List [DeepHashItem.Blob [0], DeepHashItem.Blob [1]])
      ≠ deepHash Hwit
        (DeepHashItem.List [DeepHashItem.Blob [1], DeepHashItem.Blob [0]]) :=
  ⟨Hwit_injective, Hwit_length, by decide,
   deep_hash_order_sensitive Hwit Hwit_injective Hwit_length [0] [1]
     (by decide)⟩

/-- C6: `deep_hash` is length-sensitive for blobs: with the 384-bit hash
collision resistance idealised as injectivity (and 48-byte digests),
blobs of different lengths never share a digest, whatever their
contents. -/
theorem deep_hash_length_sensitive (H : List Nat → List Nat)
    (hinj : Function.Injective H) (hH : ∀ s, (H s).length = 48)
    (x y : List Nat) (hxy : x.length ≠ y.length) :
    deepHash H (DeepHashItem.Blob x) ≠ deepHash H (DeepHashItem.Blob y) := by
  intro h
  rw [deepHash_blob, deepHash_blob] at h
  obtain ⟨h2, -⟩ := hash48_append_inj H hH (hinj h)
  have h4 := hinj h2
  simp only [blobTag, List.cons_append, List.nil_append, List.cons.injEq,
    true_and] at h4
  exact hxy (decimalAscii_injective h4)

theorem deep_hash_length_sensitive_witness :
    Function.Injective Hwit ∧ (∀ s, (Hwit s).length = 48) ∧
    (([7] : List Nat).length ≠ ([7, 7] : List Nat).length) ∧
    deepHash Hwit (DeepHashItem.Blob [7])
      ≠ deepHash Hwit (DeepHashItem.Blob [7, 7]) :=
  ⟨Hwit_injective, Hwit_length, by decide,
   deep_hash_length_sensitive Hwit Hwit_injective Hwit_length [7] [7, 7]
     (by decide)⟩

/-- C2: with no signer held, each of the four key-bound `Provider`
operations fails with the no-key error; with a signer held, each
succeeds and returns the value of the corresponding direct `Signer`
call. -/
theorem provider_key_dispatch (H256 : List Nat → List Nat) (p : Provider)
    (m : List Nat) :
    (p.signer = none →
      p.sign m = Except.error (Error.NoneError "No private key present") ∧
      p.public_key =
        Except.error (Error.NoneError "No private key present") ∧
      p.keypair_modulus =
        Except.error (Error.NoneError "No private key present") ∧
      p.wallet_address H256 =
        Except.error (Error.NoneError "No private key present")) ∧
    (∀ s, p.signer = some s →
      (p.sign m = s.sign m ∧ p.sign m = Except.ok ⟨s.sign_fn m⟩) ∧
      (p.public_key = s.public_key ∧
        p.public_key = Except.ok ⟨s.n_bytes⟩) ∧
      (p.keypair_modulus = s.keypair_modulus ∧
        p.keypair_modulus = Except.ok ⟨s.n_bytes⟩) ∧
      (p.wallet_address H256 = s.wallet_address H256 ∧
        p.wallet_address H256 = Except.ok ⟨H256 s.n_bytes⟩)) := by
  constructor
  · intro hnone
    simp [Provider.sign, Provider.public_key, Provider.keypair_modulus,
      Provider.wallet_address, hnone]
  · intro s hsome
    simp [Provider.sign, Provider.public_key, Provider.keypair_modulus,
      Provider.wallet_address, hsome, Signer.sign, Signer.public_key,
      Signer.keypair_modulus, Signer.wallet_address]

theorem provider_key_dispatch_witness :
    ((Provider.new none).sign [5] =
      Except.error (Error.NoneError "No private key present")) ∧
    ((Provider.new (some sWit)).sign [5] =
      Except.ok ⟨sWit.sign_fn [5]⟩) ∧
    ((Provider.new (some sWit)).public_key =
      Except.ok ⟨sWit.n_bytes⟩) :=
  ⟨((provider_key_dispatch H32 (Provider.new none) [5]).1 rfl).1,
   (((provider_key_dispatch H32 (Provider.new (some sWit)) [5]).2 sWit
      rfl).1).2,
   ((((provider_key_dispatch H32 (Provider.new (some sWit)) [5]).2 sWit
      rfl).2).1).2⟩

/-- C7: with a signer held, `Provider::keypair_modulus` returns exactly
the same value as `Provider::public_key`, namely the big-endian modulus
bytes. -/
theorem keypair_modulus_eq_public_key (p : Provider) (s : Signer)
    (hs : p.signer = some s) :
    p.keypair_modulus = p.public_key ∧
    p.keypair_modulus = Except.ok ⟨s.n_bytes⟩ := by
  simp [Provider.keypair_modulus, Provider.public_key, hs,
    Signer.keypair_modulus, Signer.public_key]

theorem keypair_modulus_eq_public_key_witness :
    (Provider.new (some sWit)).keypair_modulus =
        (Provider.new (some sWit)).public_key ∧
    (Provider.new (some sWit)).keypair_modulus =
        Except.ok ⟨sWit.n_bytes⟩ :=
  keypair_modulus_eq_public_key (Provider.new (some sWit)) sWit rfl

/-- C8: `Provider::hash_sha256` totally computes a digest of exactly 32
bytes for every message and every provider (with or without a signer),
given that the underlying general-purpose hash has 32-byte digests. -/
theorem provider_hash_sha256_always_32 (H256 : List Nat → List Nat)
    (hH : ∀ m, (H256 m).length = 32) (p : Provider) (message : List Nat) :
    (p.hash_sha256 H256 message).length = 32 := by
  rw [Provider.hash_sha256]
  exact hH _

theorem provider_hash_sha256_always_32_witness :
    (∀ m, (H32 m).length = 32) ∧
    ((Provider.new none).hash_sha256 H32 [1, 2, 3]).length = 32 :=
  ⟨fun _ => by simp [H32],
   provider_hash_sha256_always_32 H32 (fun _ => by simp [H32])
     (Provider.new none) [1, 2, 3]⟩

/-- C9: every `Provider` operation takes the receiver by immutable
borrow; in the state-passing embedding the provider state after each of
the six operations equals the provider before it. -/
theorem provider_ops_preserve_state (H H256 : List Nat → List Nat)
    (p : Provider) (item : DeepHashItem) (m : List Nat) :
    (p.deep_hash_st H item).2 = p ∧ (p.hash_sha256_st H256 m).2 = p ∧
    (p.sign_st m).2 = p ∧ (p.public_key_st).2 = p ∧
    (p.keypair_modulus_st).2 = p ∧ (p.wallet_address_st H256).2 = p :=
  ⟨rfl, rfl, rfl, rfl, rfl, rfl⟩

/-- Loader returning a fixed signer, used by the construction witness. -/
def loadOkWit : String → Except Error Signer :=
  fun _ => Except.ok sWit

/-- Loader failing with a key-load error, used by the construction
witness. -/
def loadErrWit : String → Except Error Signer :=
  fun _ => Except.error (Error.KeyLoadError "missing")

/-- C10: the derived `Default` provider and `Provider::new(None)` hold no
signer and their key-bound operations fail with the no-key error;
`Provider::new(Some(s))` holds exactly `s`; `Provider::from_keypair_path`
wraps the loaded signer on success and propagates the loader error on
failure, constructing no provider. -/
theorem provider_construction (H256 : List Nat → List Nat)
    (load : String → Except Error Signer) (path : String) (s : Signer)
    (e : Error) (m : List Nat) :
    Provider.default.signer = none ∧
    (Provider.new none).signer = none ∧
    (Provider.default.sign m =
        Except.error (Error.NoneError "No private key present") ∧
      Provider.default.public_key =
        Except.error (Error.NoneError "No private key present") ∧
      Provider.default.keypair_modulus =
        Except.error (Error.NoneError "No private key present") ∧
      Provider.default.wallet_address H256 =
        Except.error (Error.NoneError "No private key present")) ∧
    (Provider.new (some s)).signer = some s ∧
    (load path = Except.ok s →
      Provider.from_keypair_path load path =
        Except.ok (Provider.new (some s))) ∧
    (load path = Except.error e →
      Provider.from_keypair_path load path = Except.error e) := by
  refine ⟨rfl, rfl, ⟨rfl, rfl, rfl, rfl⟩, rfl, ?_, ?_⟩
  · intro h
    rw [Provider.from_keypair_path, h]
  · intro h
    rw [Provider.from_keypair_path, h]

theorem provider_construction_witness :
    Provider.default.signer = none ∧
    (Provider.new (some sWit)).signer = some sWit ∧
    (loadOkWit "w" = Except.ok sWit ∧
      Provider.from_keypair_path loadOkWit "w" =
        Except.ok (Provider.new (some sWit))) ∧
    (loadErrWit "w" = Except.error (Error.KeyLoadError "missing") ∧
      Provider.from_keypair_path loadErrWit "w" =
        Except.error (Error.KeyLoadError "missing")) :=
  ⟨(provider_construction H32 loadOkWit "w" sWit
      (Error.KeyLoadError "missing") [5]).1,
   (provider_construction H32 loadOkWit "w" sWit
      (Error.KeyLoadError "missing") [5]).2.2.2.1,
   ⟨rfl, (provider_construction H32 loadOkWit "w" sWit
      (Error.KeyLoadError "missing") [5]).2.2.2.2.1 rfl⟩,
   ⟨rfl, (provider_construction H32 loadErrWit "w" sWit
      (Error.KeyLoadError "missing") [5]).2.2.2.2.2 rfl⟩⟩

/-- Recognises a decode-error outcome of the codec. -/
def isDecodeError : Except Error (List Nat) → Bool
  | Except.error (Error.DecodeError _) => true
  | _ => false

theorem bytesToSextets_lt (bytes : List Nat) (hb : ∀ b ∈ bytes, b < 256) :
    ∀ v ∈ bytesToSextets bytes, v < 64 := by
  induction bytes using bytesToSextets.induct with
  | case1 b0 b1 b2 rest ih =>
      have h0 : b0 < 256 := hb b0 (by simp)
      have h1 : b1 < 256 := hb b1 (by simp)
      have h2 : b2 < 256 := hb b2 (by simp)
      have hrest : ∀ b ∈ rest, b < 256 := fun b hbm => hb b (by simp [hbm])
      intro v hv
      rw [bytesToSextets] at hv
      simp only [List.mem_cons] at hv
      rcases hv with h | h | h | h | h
      · omega
      · omega
      · omega
      · omega
      · exact ih hrest v h
  | case2 b0 b1 =>
      have h0 : b0 < 256 := hb b0 (by simp)
      have h1 : b1 < 256 := hb b1 (by simp)
      intro v hv
      rw [bytesToSextets] at hv
      simp only [List.mem_cons, List.not_mem_nil, or_false] at hv
      rcases hv with h | h | h <;> omega
  | case3 b0 =>
      have h0 : b0 < 256 := hb b0 (by simp)
      intro v hv
      rw [bytesToSextets] at hv
      simp only [List.mem_cons, List.not_mem_nil, or_false] at hv
      rcases hv with h | h <;> omega
  | case4 =>
      intro v hv
      rw [bytesToSextets] at hv
      simp at hv

theorem b64Value_b64Char (v : Nat) (hv : v < 64) :
    b64Value (b64Char v) = some v := by
  revert hv
  revert v
  decide

theorem decodeSextets_map_b64Char (l : List Nat) (hl : ∀ v ∈ l, v < 64) :
    decodeSextets (l.map b64Char) = some l := by
  induction l with
  | nil => rfl
  | cons v rest ih =>
      rw [List.map_cons, decodeSextets,
        b64Value_b64Char v (hl v (by simp)),
        ih (fun w hw => hl w (by simp [hw]))]

theorem sextetsToBytes_bytesToSextets (bytes : List Nat)
    (hb : ∀ b ∈ bytes, b < 256) :
    sextetsToBytes (bytesToSextets bytes) = some bytes := by
  induction bytes using bytesToSextets.induct with
  | case1 b0 b1 b2 rest ih =>
      have h0 : b0 < 256 := hb b0 (by simp)
      have h1 : b1 < 256 := hb b1 (by simp)
      have h2 : b2 < 256 := hb b2 (by simp)
      have hrest : ∀ b ∈ rest, b < 256 := fun b hbm => hb b (by simp [hbm])
      rw [bytesToSextets, sextetsToBytes, ih hrest, Option.map_some']
      have e0 : (b0 / 4) * 4 + ((b0 % 4) * 16 + b1 / 16) / 16 = b0 := by
        omega
      have e1 : (((b0 % 4) * 16 + b1 / 16) % 16) * 16 +
          ((b1 % 16) * 4 + b2 / 64) / 4 = b1 := by
        omega
      have e2 : (((b1 % 16) * 4 + b2 / 64) % 4) * 64 + b2 % 64 = b2 := by
        omega
      rw [e0, e1, e2]
  | case2 b0 b1 =>
      have h0 : b0 < 256 := hb b0 (by simp)
      have h1 : b1 < 256 := hb b1 (by simp)
      rw [bytesToSextets, sextetsToBytes]
      have ht : (b1 % 16) * 4 % 4 = 0 := by omega
      rw [if_pos ht]
      have e0 : (b0 / 4) * 4 + ((b0 % 4) * 16 + b1 / 16) / 16 = b0 := by
        omega
      have e1 : (((b0 % 4) * 16 + b1 / 16) % 16) * 16 + (b1 % 16) * 4 / 4 =
          b1 := by
        omega
      rw [e0, e1]
  | case3 b0 =>
      have h0 : b0 < 256 := hb b0 (by simp)
      rw [bytesToSextets, sextetsToBytes]
      have ht : (b0 % 4) * 16 % 16 = 0 := by omega
      rw [if_pos ht]
      have e0 : (b0 / 4) * 4 + (b0 % 4) * 16 / 16 = b0 := by omega
      rw [e0]
  | case4 => rfl

theorem b64Value_some (c v : Nat) (h : b64Value c = some v) :
    v < 64 ∧ b64Char v = c := by
  rw [b64Value] at h
  split_ifs at h with h1 h2 h3 h4 h5 <;>
    simp only [Option.some.injEq] at h <;> subst h <;>
    refine ⟨by omega, ?_⟩ <;> simp only [b64Char] <;> split_ifs <;> omega

theorem decodeSextets_sound (s : List Nat) :
    ∀ vs, decodeSextets s = some vs →
      s = vs.map b64Char ∧ ∀ v ∈ vs, v < 64 := by
  induction s with
  | nil =>
      intro vs h
      rw [decodeSextets] at h
      simp only [Option.some.injEq] at h
      subst h
      simp
  | cons c rest ih =>
      intro vs h
      rw [decodeSextets] at h
      cases hv : b64Value c with
      | none => rw [hv] at h; simp at h
      | some v =>
          rw [hv] at h
          cases hr : decodeSextets rest with
          | none => rw [hr] at h; simp at h
          | some vs' =>
              rw [hr] at h
              simp only [Option.some.injEq] at h
              subst h
              obtain ⟨hmap, hlt⟩ := ih vs' hr
              obtain ⟨hv64, hchar⟩ := b64Value_some c v hv
              refine ⟨?_, ?_⟩
              · rw [List.map_cons, hchar, ← hmap]
              · intro w hw
                rcases List.mem_cons.mp hw with hw | hw
                · rw [hw]; exact hv64
                · exact hlt w hw

theorem bytesToSextets_sextetsToBytes (vs : List Nat) :
    ∀ bs, sextetsToBytes vs = some bs → (∀ v ∈ vs, v < 64) →
      bytesToSextets bs = vs ∧ ∀ b ∈ bs, b < 256 := by
  induction vs using sextetsToBytes.induct with
  | case1 s0 s1 s2 s3 rest ih =>
      intro bs h hv
      have h0 : s0 < 64 := hv s0 (by simp)
      have h1 : s1 < 64 := hv s1 (by simp)
      have h2 : s2 < 64 := hv s2 (by simp)
      have h3 : s3 < 64 := hv s3 (by simp)
      have hrest : ∀ v ∈ rest, v < 64 := fun v hm => hv v (by simp [hm])
      rw [sextetsToBytes] at h
      rcases Option.map_eq_some'.mp h with ⟨bs', hbs', hmk⟩
      obtain ⟨hsx, hlt⟩ := ih bs' hbs' hrest
      subst hmk
      constructor
      · rw [bytesToSextets, hsx]
        have e0 : (s0 * 4 + s1 / 16) / 4 = s0 := by omega
        have e1 : ((s0 * 4 + s1 / 16) % 4) * 16 +
            ((s1 % 16) * 16 + s2 / 4) / 16 = s1 := by omega
        have e2 : (((s1 % 16) * 16 + s2 / 4) % 16) * 4 +
            ((s2 % 4) * 64 + s3) / 64 = s2 := by omega
        have e3 : ((s2 % 4) * 64 + s3) % 64 = s3 := by omega
        rw [e0, e1, e2, e3]
      · intro b hb
        simp only [List.mem_cons] at hb
        rcases hb with h | h | h | h
        · omega
        · omega
        · omega
        · exact hlt b h
  | case2 s0 s1 s2 hcond =>
      intro bs h hv
      have h0 : s0 < 64 := hv s0 (by simp)
      have h1 : s1 < 64 := hv s1 (by simp)
      have h2 : s2 < 64 := hv s2 (by simp)
      rw [sextetsToBytes, if_pos hcond] at h
      simp only [Option.some.injEq] at h
      subst h
      constructor
      · rw [bytesToSextets]
        have e0 : (s0 * 4 + s1 / 16) / 4 = s0 := by omega
        have e1 : ((s0 * 4 + s1 / 16) % 4) * 16 +
            ((s1 % 16) * 16 + s2 / 4) / 16 = s1 := by omega
        have e2 : (((s1 % 16) * 16 + s2 / 4) % 16) * 4 = s2 := by omega
        rw [e0, e1, e2]
      · intro b hb
        simp only [List.mem_cons, List.not_mem_nil, or_false] at hb
        rcases hb with h | h <;> omega
  | case3 s0 s1 s2 hcond =>
      intro bs h hv
      rw [sextetsToBytes, if_neg hcond] at h
      simp at h
  | case4 s0 s1 hcond =>
      intro bs h hv
      have h0 : s0 < 64 := hv s0 (by simp)
      have h1 : s1 < 64 := hv s1 (by simp)
      rw [sextetsToBytes, if_pos hcond] at h
      simp only [Option.some.injEq] at h
      subst h
      constructor
      · rw [bytesToSextets]
        have e0 : (s0 * 4 + s1 / 16) / 4 = s0 := by omega
        have e1 : ((s0 * 4 + s1 / 16) % 4) * 16 = s1 := by omega
        rw [e0, e1]
      · intro b hb
        simp only [List.mem_cons, List.not_mem_nil, or_false] at hb
        omega
  | case5 s0 s1 hcond =>
      intro bs h hv
      rw [sextetsToBytes, if_neg hcond] at h
      simp at h
  | case6 s0 =>
      intro bs h hv
      rw [sextetsToBytes] at h
      simp at h
  | case7 =>
      intro bs h hv
      rw [sextetsToBytes] at h
      simp only [Option.some.injEq] at h
      subst h
      exact ⟨rfl, by simp⟩

theorem decodeSextets_none_of_invalid (s : List Nat) (c : Nat) (hc : c ∈ s)
    (hinv : b64Value c = none) : decodeSextets s = none := by
  induction s with
  | nil => simp at hc
  | cons d rest ih =>
      rw [decodeSextets]
      rcases List.mem_cons.mp hc with h | h
      · subst h
        rw [hinv]
      · rw [ih h]
        cases b64Value d <;> rfl

theorem decodeSextets_length (s : List Nat) :
    ∀ vs, decodeSextets s = some vs → vs.length = s.length := by
  induction s with
  | nil =>
      intro vs h
      rw [decodeSextets] at h
      simp only [Option.some.injEq] at h
      subst h
      rfl
  | cons c rest ih =>
      intro vs h
      rw [decodeSextets] at h
      cases hv : b64Value c with
      | none => rw [hv] at h; simp at h
      | some v =>
          rw [hv] at h
          cases hr : decodeSextets rest with
          | none => rw [hr] at h; simp at h
          | some vs' =>
              rw [hr] at h
              simp only [Option.some.injEq] at h
              subst h
              simp [ih vs' hr]

theorem sextetsToBytes_none_of_bad_length (vs : List Nat)
    (hlen : vs.length % 4 = 1) : sextetsToBytes vs = none := by
  induction vs using sextetsToBytes.induct with
  | case1 s0 s1 s2 s3 rest ih =>
      rw [sextetsToBytes]
      have : rest.length % 4 = 1 := by
        simp only [List.length_cons] at hlen
        omega
      rw [ih this]
      rfl
  | case2 s0 s1 s2 hcond => simp at hlen
  | case3 s0 s1 s2 hcond => simp at hlen
  | case4 s0 s1 hcond => simp at hlen
  | case5 s0 s1 hcond => simp at hlen
  | case6 s0 => rw [sextetsToBytes]
  | case7 => simp at hlen

/-- C4: the codec round-trips: `decode(encode(x)) == x` for every byte
sequence `x`, `encode(decode(s)) == s` for every `s` that decodes, and
`decode` fails with a decode error on an invalid-alphabet character or
an invalid length. -/
theorem base64_round_trip :
    (∀ x, (∀ b ∈ x, b < 256) →
      base64Decode (base64Encode x) = Except.ok x) ∧
    (∀ s x, base64Decode s = Except.ok x → base64Encode x = s) ∧
    (∀ s, ((∃ c ∈ s, b64Value c = none) ∨ s.length % 4 = 1) →
      isDecodeError (base64Decode s) = true) := by
  refine ⟨?_, ?_, ?_⟩
  · intro x hx
    simp only [base64Encode, base64Decode,
      decodeSextets_map_b64Char _ (bytesToSextets_lt x hx),
      sextetsToBytes_bytesToSextets x hx]
  · intro s x h
    cases hd : decodeSextets s with
    | none =>
        rw [base64Decode, hd] at h
        exact absurd h (by simp)
    | some vs =>
        cases hsb : sextetsToBytes vs with
        | none =>
            simp only [base64Decode, hd, hsb] at h
            exact absurd h (by simp)
        | some bs =>
            simp only [base64Decode, hd, hsb, Except.ok.injEq] at h
            subst h
            obtain ⟨hmap, hlt⟩ := decodeSextets_sound s vs hd
            obtain ⟨hsx, -⟩ := bytesToSextets_sextetsToBytes vs bs hsb hlt
            rw [base64Encode, hsx, ← hmap]
  · intro s hbad
    rcases hbad with ⟨c, hc, hinv⟩ | hlen
    · have hd := decodeSextets_none_of_invalid s c hc hinv
      simp only [base64Decode, hd]
      rfl
    · cases hd : decodeSextets s with
      | none =>
          simp only [base64Decode, hd]
          rfl
      | some vs =>
          have hlv : vs.length % 4 = 1 := by
            rw [decodeSextets_length s vs hd]
            exact hlen
          have hsb := sextetsToBytes_none_of_bad_length vs hlv
          simp only [base64Decode, hd, hsb]
          rfl

theorem base64_round_trip_witness :
    ((∀ b ∈ ([77, 97, 110] : List Nat), b < 256) ∧
      base64Decode (base64Encode [77, 97, 110]) =
        Except.ok [77, 97, 110]) ∧
    (base64Decode [65, 65] = Except.ok [0] ∧
      base64Encode [0] = [65, 65]) ∧
    (([65] : List Nat).length % 4 = 1 ∧
      isDecodeError (base64Decode [65]) = true) :=
  ⟨⟨by decide, base64_round_trip.1 [77, 97, 110] (by decide)⟩,
   ⟨by rfl, base64_round_trip.2.1 [65, 65] [0] (by rfl)⟩,
   ⟨by decide, base64_round_trip.2.2 [65] (Or.inr (by decide))⟩⟩
